import Mathlib

/-!
Verification of the AMQP connection engine (`ConnectionImpl.cpp`).

The development shallowly embeds `ConnectionImpl` from `src/src/connectionimpl.cpp`:
the channel registry (`add` / `remove`), the incremental frame-parse loop (`parse`),
the close path (`close` / `sendClose`), the post-negotiation transition
(`setConnected`) and the outbound send path (`send`).

Collaborator classes that are declared elsewhere in the repository but whose code
is not part of the examined source (the `ReceivedFrame` codec, `ChannelImpl`,
`OutBuffer`, the `Monitor` liveness guard, the handler, and the member initialisers
of `ConnectionImpl`'s header) are modelled from the spec; each such definition
carries a doc comment starting with `Modelled from the spec:`.

Conventions:
* machine integers are `Nat` with explicit `% 65536` where the `uint16_t`
  channel cursor wraps;
* handler callbacks are recorded in an event trace (`HEvent`); whether a given
  callback reentrantly destroys the connection is driven by an explicit oracle
  (`List Bool`, one entry consumed per callback, default `false`), which stands
  for the arbitrary user code behind the callback;
* destruction of the connection object is represented by `Option` (`none` =
  the `Monitor` liveness guard reports the object gone);
* the C++ `while` loops are embedded with explicit fuel that is provably
  sufficient (each iteration consumes input / advances a 16-bit cursor), so
  every definition stays executable.
-/

namespace AMQP

/-- Connection lifecycle states, from the `state_*` enumeration used by
`connectionimpl.cpp` (`state_protocol`, `state_handshake`, `state_connected`,
`state_closing`, `state_closed`). -/
inductive CState where
  | protocol
  | handshake
  | connected
  | closing
  | closed
  deriving DecidableEq, Repr

/-- Modelled from the spec: the observable reentrant behaviour of one
registered channel handle's `close()` call (the `ChannelImpl` code is not part
of the examined source).  Closing a channel may reentrantly call
`ConnectionImpl::remove` for any set of channel ids and may synchronously
destroy the connection object. -/
structure ChanBeh where
  removes : List Nat
  destroys : Bool
  deriving DecidableEq, Repr

/-- Modelled from the spec: a channel handle whose `close()` does nothing
reentrant. -/
def defaultBeh : ChanBeh := { removes := [], destroys := false }

/-- The state of a `ConnectionImpl` object: lifecycle `_state`, the `_closed`
latch, the outbound `_queue` of serialized buffers, the `_channels` registry
(a `std::map` kept as a key-sorted association list), the `uint16_t`
`_nextFreeChannel` cursor, and the negotiated `_maxChannels` / `_maxFrame`. -/
structure ConnectionImpl where
  state : CState
  closed : Bool
  queue : List (List Nat)
  channels : List (Nat × ChanBeh)
  nextFreeChannel : Nat
  maxChannels : Nat
  maxFrame : Nat
  deriving DecidableEq, Repr

/-- Modelled from the spec: the initial member values of `ConnectionImpl`
(declared in the class header, which is not part of the examined source).
Construction starts in the handshake phase with an empty registry and queue;
the spec's channel-id scenario (`first add returns 1`) fixes the initial
cursor at 1. -/
def initConn (maxCh : Nat) : ConnectionImpl :=
  { state := CState.handshake
    closed := false
    queue := []
    channels := []
    nextFreeChannel := 1
    maxChannels := maxCh
    maxFrame := 4096 }

/-- Handler callbacks observed by the transport/event collaborator. -/
inductive HEvent where
  | onData (bytes : List Nat)
  | onConnected
  | onError (msg : String)
  | dispatched (bytes : List Nat)
  deriving DecidableEq, Repr

/-- `std::map::find(id) != end()`: is an id registered? -/
def mapMem (id : Nat) (m : List (Nat × ChanBeh)) : Bool :=
  m.any (fun p => p.1 == id)

/-- `_channels[id] = channel`: ordered-map insertion (overwrites an existing
entry for the same key, keeps keys sorted). -/
def mapInsert (id : Nat) (b : ChanBeh) : List (Nat × ChanBeh) → List (Nat × ChanBeh)
  | [] => [(id, b)]
  | (k, v) :: rest =>
    if id < k then (id, b) :: (k, v) :: rest
    else if id = k then (id, b) :: rest
    else (k, v) :: mapInsert id b rest

/-- `ConnectionImpl::remove` (connectionimpl.cpp lines 82-89): skip the zero
channel, otherwise erase the handle's id from the registry. -/
def remove (id : Nat) (conn : ConnectionImpl) : ConnectionImpl :=
  if id = 0 then conn
  else { conn with channels := conn.channels.filter (fun p => p.1 ≠ id) }

/-- The id-search loop of `ConnectionImpl::add` (connectionimpl.cpp lines
62-69): starting from the `uint16_t` cursor, advance (wrapping at the 16-bit
boundary) until a nonzero unused id is found.  The loop in the source has no
other exit; fuel 65536 covers every residue of the cursor, so `none` is
returned exactly when the C++ loop runs forever. -/
def scanFree (m : List (Nat × ChanBeh)) : Nat → Nat → Option Nat
  | _, 0 => none
  | cursor, fuel + 1 =>
    if cursor ≠ 0 ∧ mapMem cursor m = false then some cursor
    else scanFree m ((cursor + 1) % 65536) fuel

/-- `ConnectionImpl::add` (connectionimpl.cpp lines 56-76): reject when the
configured channel maximum is nonzero and reached (sentinel id 0), otherwise
scan for a free id, register the channel there and return the id, advancing
the cursor past it.  `none` models the source's infinite loop when no id is
free. -/
def add (conn : ConnectionImpl) (channel : ChanBeh) : Option (Nat × ConnectionImpl) :=
  if conn.maxChannels > 0 ∧ conn.channels.length ≥ conn.maxChannels then some (0, conn)
  else
    match scanFree conn.channels (conn.nextFreeChannel % 65536) 65536 with
    | some id =>
      some (id, { conn with
        channels := mapInsert id channel conn.channels
        nextFreeChannel := (id + 1) % 65536 })
    | none => none

/-- Run `n` sequential `add` calls, collecting the returned ids; a call that
never returns (modelled by `none`) ends the run. -/
def addRun : Nat → ConnectionImpl → List Nat × ConnectionImpl
  | 0, conn => ([], conn)
  | n + 1, conn =>
    match add conn defaultBeh with
    | some (id, conn2) =>
      let r := addRun n conn2
      (id :: r.1, r.2)
    | none => ([], conn)

/-- A connection (unlimited capacity) whose registry holds exactly the ids
`1 .. k` and whose cursor sits one past them: the state reached after `k`
sequential `add` calls on a fresh unlimited connection. -/
def connAt (k : Nat) : ConnectionImpl :=
  { initConn 0 with
    channels := (List.range' 1 k).map (fun i => (i, defaultBeh))
    nextFreeChannel := (k + 1) % 65536 }

/-- An outbound frame, through the interface `send` uses (`Frame::totalSize`,
`Frame::fill`, `Frame::needsSeparator`, `Frame::partOfHandshake`): its encoded
payload bytes and the two boolean properties. -/
structure Frame where
  payload : List Nat
  needsSeparator : Bool
  partOfHandshake : Bool
  deriving DecidableEq, Repr

/-- The buffer built by `send` (connectionimpl.cpp lines 259-265): the frame's
encoding followed by the end-of-frame byte 206 when the frame needs a
separator. -/
def buildBuffer (f : Frame) : List Nat :=
  f.payload ++ (if f.needsSeparator then [206] else [])

/-- Modelled from the spec: the initial raw protocol header frame
(`ProtocolHeaderFrame`, sent by the constructor).  Its encoding class is not
part of the examined source; the spec states that it has no AMQP frame
envelope, needs no trailing separator and is part of the handshake. -/
def protocolHeaderFrame : Frame :=
  { payload := [65, 77, 81, 80, 0, 0, 9, 1]
    needsSeparator := false
    partOfHandshake := true }

/-- Modelled from the spec: the connection-close frame
`ConnectionCloseFrame(0, "shutdown")` sent by `sendClose`.  Its encoding class
is not part of the examined source; only its identity matters here.  It is an
ordinary (non-handshake) frame addressed to channel 0 that needs the trailing
separator. -/
def connectionCloseFrame : Frame :=
  { payload := [1, 0, 0, 10, 50]
    needsSeparator := true
    partOfHandshake := false }

/-- Result of one `send` call: the returned bool, the connection afterwards
(`none` when the `onData` callback destroyed it), the handler events emitted,
and the remaining destruction oracle. -/
structure SendRes where
  ok : Bool
  alive : Option ConnectionImpl
  trace : List HEvent
  oracle : List Bool
  deriving DecidableEq, Repr

/-- `ConnectionImpl::send` (connectionimpl.cpp lines 253-281): refuse when
closing or closed; build the buffer (with separator byte unless the frame
declares otherwise); transmit immediately via `onData` when fully connected
with an empty queue or when the frame is part of the handshake, otherwise
append the buffer to the outbound queue.  Returns true in both branches, even
if the handler destroyed the connection. -/
def send (f : Frame) (conn : ConnectionImpl) (oracle : List Bool) : SendRes :=
  if conn.state = CState.closing ∨ conn.state = CState.closed then
    { ok := false, alive := some conn, trace := [], oracle := oracle }
  else
    let buffer := buildBuffer f
    if (conn.state = CState.connected ∧ conn.queue = []) ∨ f.partOfHandshake then
      { ok := true
        alive := if oracle.headD false then none else some conn
        trace := [HEvent.onData buffer]
        oracle := oracle.tail }
    else
      { ok := true
        alive := some { conn with queue := conn.queue ++ [buffer] }
        trace := []
        oracle := oracle }

/-- Result of the lifecycle operations `sendClose` / `close` /
`setConnected`: either the loop incremented an iterator into a map that
erased the pointed-to element (`iterUB`, undefined behaviour in the source),
or fuel ran out (`fuelOut`, unreachable for well-formed registries), or a
normal return carrying the returned bool, the connection (`none` =
destroyed), the emitted events and the remaining oracle. -/
inductive Res where
  | iterUB
  | fuelOut
  | ok (ret : Bool) (alive : Option ConnectionImpl) (trace : List HEvent) (oracle : List Bool)
  deriving DecidableEq, Repr

/-- The channel-iteration loop of `ConnectionImpl::sendClose`
(connectionimpl.cpp lines 180-206), with C++ `std::map` iterator semantics
made explicit.  `remaining` is the part of the registry the iterator has not
visited yet.  Each step closes the current channel (which reentrantly removes
ids from the live registry and may destroy the connection); if the connection
is destroyed the loop returns false; if the current element itself was erased
the subsequent `iter++` reads an invalidated iterator (`iterUB`); erased
later elements simply disappear from the iteration.  After the loop the
connection-close frame is sent and, if the object is still alive, the state
becomes closing. -/
def sendCloseLoop (fuel : Nat) (conn : ConnectionImpl)
    (remaining : List (Nat × ChanBeh)) (oracle : List Bool) : Res :=
  match fuel, remaining with
  | _, [] =>
    let r := send connectionCloseFrame conn oracle
    match r.alive with
    | none => Res.ok false none r.trace r.oracle
    | some c => Res.ok true (some { c with state := CState.closing }) r.trace r.oracle
  | 0, _ :: _ => Res.fuelOut
  | fuel + 1, (id, beh) :: rest =>
    let conn2 := beh.removes.foldl (fun c i => remove i c) conn
    if beh.destroys then Res.ok false none [] oracle
    else if id ≠ 0 ∧ id ∈ beh.removes then Res.iterUB
    else sendCloseLoop fuel conn2
      (rest.filter (fun p => p.1 == 0 || !(beh.removes.contains p.1))) oracle

/-- `ConnectionImpl::sendClose` (connectionimpl.cpp lines 180-206): iterate
the live `_channels` map (no snapshot is taken in the source), then send the
close frame.  Fuel `length + 1` is sufficient because the iterator only moves
forward and reentrant removals never add elements. -/
def sendClose (conn : ConnectionImpl) (oracle : List Bool) : Res :=
  sendCloseLoop (conn.channels.length + 1) conn conn.channels oracle

/-- `ConnectionImpl::close` (connectionimpl.cpp lines 157-173): a second call
while the `_closed` latch is set is a no-op returning false; during handshake
or protocol negotiation the latch is set and the call returns true without
sending anything; otherwise the close sequence runs and the call returns
true. -/
def close (conn : ConnectionImpl) (oracle : List Bool) : Res :=
  if conn.closed then Res.ok false (some conn) [] oracle
  else if conn.state = CState.handshake ∨ conn.state = CState.protocol then
    Res.ok true (some { conn with closed := true }) [] oracle
  else
    match sendClose { conn with closed := true } oracle with
    | Res.iterUB => Res.iterUB
    | Res.fuelOut => Res.fuelOut
    | Res.ok _ alive t o => Res.ok true alive t o

/-- Result of the queue-draining loop in `setConnected`. -/
structure DrainRes where
  alive : Option ConnectionImpl
  trace : List HEvent
  oracle : List Bool
  deriving DecidableEq, Repr

/-- The queue-draining loop of `ConnectionImpl::setConnected`
(connectionimpl.cpp lines 232-245): pop the front buffer, deliver it through
`onData`, stop immediately if the callback destroyed the connection. -/
def drainLoop (conn : ConnectionImpl) (q : List (List Nat)) (oracle : List Bool) : DrainRes :=
  match q with
  | [] => { alive := some { conn with queue := [] }, trace := [], oracle := oracle }
  | b :: rest =>
    if oracle.headD false then
      { alive := none, trace := [HEvent.onData b], oracle := oracle.tail }
    else
      let r := drainLoop conn rest oracle.tail
      { alive := r.alive, trace := HEvent.onData b :: r.trace, oracle := r.oracle }

/-- `ConnectionImpl::setConnected` (connectionimpl.cpp lines 211-246): move to
the connected state; if a close was latched run the close sequence now,
aborting if it reports the object destroyed; then inform the handler via
`onConnected` (which may destroy the connection) and drain the outbound queue
front-first, one `onData` call per entry, stopping as soon as the liveness
guard reports destruction. -/
def setConnected (conn : ConnectionImpl) (oracle : List Bool) : Res :=
  let c := { conn with state := CState.connected }
  match (if c.closed then sendClose c oracle else Res.ok true (some c) [] oracle) with
  | Res.iterUB => Res.iterUB
  | Res.fuelOut => Res.fuelOut
  | Res.ok _ none t o => Res.ok true none t o
  | Res.ok _ (some c1) t o =>
    if o.headD false then Res.ok true none (t ++ [HEvent.onConnected]) o.tail
    else
      let r := drainLoop c1 c1.queue o.tail
      Res.ok true r.alive (t ++ HEvent.onConnected :: r.trace) r.oracle

/-- A sequence of `send` calls with a handler that never destroys the
connection (empty oracle), collecting the emitted events and the resulting
connection. -/
def sendSeq : List Frame → ConnectionImpl → List HEvent × ConnectionImpl
  | [], conn => ([], conn)
  | f :: rest, conn =>
    let r := send f conn []
    match r.alive with
    | some c => let s := sendSeq rest c; (r.trace ++ s.1, s.2)
    | none => (r.trace, conn)

/-- Outcome of trying to recognize one frame at the front of the buffer
(the `ReceivedFrame` constructor together with `ReceivedFrame::complete` and
`ReceivedFrame::totalSize`): not enough bytes yet, a complete frame of `n`
total bytes, or a protocol exception raised during decoding. -/
inductive DecodeOutcome where
  | incomplete
  | frame (n : Nat)
  | fault (msg : String)
  deriving DecidableEq, Repr

/-- Outcome of dispatching one recognized frame (`ReceivedFrame::process`):
the connection afterwards, synchronous destruction of the connection object
(the `Monitor` becomes invalid), or a protocol exception raised during
processing. -/
inductive ProcOutcome where
  | alive (c : ConnectionImpl)
  | destroyed
  | fault (msg : String)
  deriving DecidableEq, Repr

/-- The frame codec and frame processor `parse` collaborates with.  Both live
outside the examined source, so `parse` is parametrized by them: `decode`
receives the declared maximum frame size and the remaining buffer, `proc`
receives the recognized frame's bytes and the connection. -/
structure ParseEnv where
  decode : Nat → List Nat → DecodeOutcome
  proc : List Nat → ConnectionImpl → ProcOutcome

/-- Result of a `parse` call: bytes consumed, events emitted (frame
dispatches and error reports, in order), and the connection afterwards
(`none` when a dispatched frame destroyed it). -/
structure ParseResult where
  processed : Nat
  events : List HEvent
  alive : Option ConnectionImpl
  deriving DecidableEq, Repr

/-- Events recording the externally observable steps of `parse`:
`dispatched` marks a `ReceivedFrame::process` call on the frame's bytes. -/
def isErrorEv : HEvent → Bool
  | HEvent.onError _ => true
  | _ => false

/-- Modelled from the spec: `ConnectionImpl::reportError` (declared in the
class header, not part of the examined source).  The fault is surfaced once
via the error callback and the connection must afterwards be treated as dead:
no further `parse` call makes progress, so the state becomes closed. -/
def reportError (c : ConnectionImpl) : ConnectionImpl :=
  { c with state := CState.closed }

/-- The `while` loop of `ConnectionImpl::parse` (connectionimpl.cpp lines
120-146), with explicit fuel: while bytes remain and the liveness guard is
valid, recognize one frame; an incomplete frame returns the bytes consumed so
far; a recognized frame is dispatched, after which the byte counters advance
and the loop re-checks liveness (a destroyed connection ends the call with
the frame's bytes counted); a protocol exception from decoding or processing
is caught, reported once via `reportError`, and ends the call with the bytes
consumed before the faulting frame.  The guard `0 < n ∧ n ≤ buf.length`
records the codec's contract (`complete()` implies the total size is positive
and within the buffer); outside it the source's size arithmetic is undefined
and the model stops. -/
def parseLoop (env : ParseEnv) : Nat → ConnectionImpl → List Nat → ParseResult
  | 0, c, _ => { processed := 0, events := [], alive := some c }
  | _ + 1, c, [] => { processed := 0, events := [], alive := some c }
  | fuel + 1, c, b :: bs =>
    match env.decode c.maxFrame (b :: bs) with
    | DecodeOutcome.incomplete => { processed := 0, events := [], alive := some c }
    | DecodeOutcome.fault msg =>
      { processed := 0, events := [HEvent.onError msg], alive := some (reportError c) }
    | DecodeOutcome.frame n =>
      if 0 < n ∧ n ≤ (b :: bs).length then
        let fb := (b :: bs).take n
        match env.proc fb c with
        | ProcOutcome.destroyed =>
          { processed := n, events := [HEvent.dispatched fb], alive := none }
        | ProcOutcome.fault msg =>
          { processed := 0, events := [HEvent.dispatched fb, HEvent.onError msg]
            alive := some (reportError c) }
        | ProcOutcome.alive c2 =>
          let r := parseLoop env fuel c2 ((b :: bs).drop n)
          { processed := n + r.processed
            events := HEvent.dispatched fb :: r.events
            alive := r.alive }
      else { processed := 0, events := [], alive := some c }

/-- `ConnectionImpl::parse` (connectionimpl.cpp lines 107-150): nothing is
consumed when the state is already closed; otherwise run the loop.  Fuel
`length + 1` never runs out because every iteration consumes at least one
byte. -/
def parse (env : ParseEnv) (c : ConnectionImpl) (buf : List Nat) : ParseResult :=
  if c.state = CState.closed then { processed := 0, events := [], alive := some c }
  else parseLoop env (buf.length + 1) c buf

/-- The declared payload size in a 7-byte general frame header: a 32-bit
big-endian integer in bytes 3..6. -/
def beSize (buf : List Nat) : Nat :=
  buf.getD 3 0 * 16777216 + buf.getD 4 0 * 65536 + buf.getD 5 0 * 256 + buf.getD 6 0

/-- Modelled from the spec: a concrete instance of the `ReceivedFrame`
recognizer (the codec class is not part of the examined source), used to
exercise `parse` on concrete bytes.  A frame is a 7-byte header (type,
channel, 32-bit big-endian payload size) followed by the payload and the
end-of-frame byte, so its total size is `8 + size`; fewer bytes than that are
incomplete; a frame exceeding the declared nonzero maximum frame size raises
a protocol fault. -/
def modelDecode (maxFrame : Nat) (buf : List Nat) : DecodeOutcome :=
  if buf.length < 7 then DecodeOutcome.incomplete
  else if 0 < maxFrame ∧ maxFrame < 8 + beSize buf then
    DecodeOutcome.fault "frame size exceeded"
  else if buf.length < 8 + beSize buf then DecodeOutcome.incomplete
  else DecodeOutcome.frame (8 + beSize buf)

/-- Modelled from the spec: a frame processor that leaves the connection
untouched. -/
def procId : List Nat → ConnectionImpl → ProcOutcome :=
  fun _ c => ProcOutcome.alive c

/-- Modelled from the spec: a frame processor whose callback tears the
connection down when the frame's type byte is 8, and leaves it untouched
otherwise. -/
def procSel : List Nat → ConnectionImpl → ProcOutcome :=
  fun fb c => if fb.headD 0 = 8 then ProcOutcome.destroyed else ProcOutcome.alive c

/-! ### Registry lemmas -/

lemma mapMem_iff {i : Nat} {m : List (Nat × ChanBeh)} :
    mapMem i m = true ↔ i ∈ m.map Prod.fst := by
  simp only [mapMem, List.any_eq_true, List.mem_map, beq_iff_eq]

lemma mapMem_eq_false_iff {i : Nat} {m : List (Nat × ChanBeh)} :
    mapMem i m = false ↔ i ∉ m.map Prod.fst := by
  rw [← mapMem_iff]
  cases mapMem i m <;> simp

lemma scanFree_some {m : List (Nat × ChanBeh)} :
    ∀ (fuel cursor id : Nat), cursor < 65536 →
      scanFree m cursor fuel = some id →
      id < 65536 ∧ id ≠ 0 ∧ mapMem id m = false := by
  intro fuel
  induction fuel with
  | zero => intro cursor id hc h; simp [scanFree] at h
  | succ n ih =>
    intro cursor id hc h
    by_cases hcond : cursor ≠ 0 ∧ mapMem cursor m = false
    · have : cursor = id := by simpa [scanFree, hcond] using h
      subst this
      exact ⟨hc, hcond.1, hcond.2⟩
    · have h' : scanFree m ((cursor + 1) % 65536) n = some id := by
        simpa [scanFree, hcond] using h
      exact ih _ _ (Nat.mod_lt _ (by omega)) h'

lemma scanFree_none {m : List (Nat × ChanBeh)} :
    ∀ (fuel cursor : Nat), cursor < 65536 →
      scanFree m cursor fuel = none →
      ∀ k, k < fuel →
        ((cursor + k) % 65536 = 0 ∨ mapMem ((cursor + k) % 65536) m = true) := by
  intro fuel
  induction fuel with
  | zero => intro cursor hc h k hk; omega
  | succ n ih =>
    intro cursor hc h k hk
    by_cases hcond : cursor ≠ 0 ∧ mapMem cursor m = false
    · simp [scanFree, hcond] at h
    · have h' : scanFree m ((cursor + 1) % 65536) n = none := by
        simpa [scanFree, hcond] using h
      match k with
      | 0 =>
        rw [Nat.add_zero, Nat.mod_eq_of_lt hc]
        rcases Decidable.not_and_iff_or_not.mp hcond with h0 | hm
        · exact Or.inl (by omega)
        · exact Or.inr (by cases hmb : mapMem cursor m with
            | true => rfl
            | false => exact absurd hmb hm)
      | k + 1 =>
        have hrec := ih ((cursor + 1) % 65536) (Nat.mod_lt _ (by omega)) h' k (by omega)
        have heq : ((cursor + 1) % 65536 + k) % 65536 = (cursor + (k + 1)) % 65536 := by
          omega
        rw [heq] at hrec
        exact hrec

lemma exists_free {m : List (Nat × ChanBeh)}
    (hnodup : (m.map Prod.fst).Nodup) (hlen : m.length < 65535) :
    ∃ i, 1 ≤ i ∧ i < 65536 ∧ mapMem i m = false := by
  by_contra hno
  push_neg at hno
  have hsub : Finset.Ico 1 65536 ⊆ (m.map Prod.fst).toFinset := by
    intro i hi
    rw [Finset.mem_Ico] at hi
    have hne := hno i hi.1 hi.2
    have hmem : mapMem i m = true := by
      cases hmb : mapMem i m with
      | true => rfl
      | false => exact absurd hmb hne
    rw [List.mem_toFinset]
    exact mapMem_iff.mp hmem
  have hcard := Finset.card_le_card hsub
  rw [Nat.card_Ico] at hcard
  have hft : (m.map Prod.fst).toFinset.card = m.length := by
    rw [List.card_toFinset, hnodup.dedup, List.length_map]
  omega

lemma mapInsert_of_gt {id : Nat} {b : ChanBeh} :
    ∀ (l : List (Nat × ChanBeh)), (∀ p ∈ l, p.1 < id) →
      mapInsert id b l = l ++ [(id, b)] := by
  intro l
  induction l with
  | nil => intro _; simp [mapInsert]
  | cons a rest ih =>
    intro h
    obtain ⟨k, v⟩ := a
    have hk : k < id := h (k, v) (by simp)
    simp only [mapInsert, if_neg (by omega : ¬ id < k), if_neg (by omega : ¬ id = k),
      List.cons_append]
    exact congrArg _ (ih fun p hp => h p (by simp [hp]))

lemma keys_connAt (k : Nat) :
    (connAt k).channels.map Prod.fst = List.range' 1 k := by
  simp [connAt, List.map_map]
  exact List.map_id _

lemma add_step {k : Nat} (hk : k < 65535) :
    add (connAt k) defaultBeh = some (k + 1, connAt (k + 1)) := by
  have hcur : (connAt k).nextFreeChannel % 65536 = k + 1 := by
    simp only [connAt]
    omega
  have hmem : mapMem (k + 1) (connAt k).channels = false := by
    rw [mapMem_eq_false_iff, keys_connAt, List.mem_range'_1]
    omega
  have hscan : scanFree (connAt k).channels (k + 1) 65536 = some (k + 1) := by
    rw [show (65536 : Nat) = 65535 + 1 from rfl, scanFree]
    simp [hmem]
  have hins : mapInsert (k + 1) defaultBeh (connAt k).channels =
      (connAt (k + 1)).channels := by
    rw [mapInsert_of_gt]
    · simp only [connAt, List.range'_1_concat, List.map_append]
      simp [Nat.add_comm]
    · intro p hp
      simp only [connAt, List.mem_map] at hp
      obtain ⟨i, hi, rfl⟩ := hp
      rw [List.mem_range'_1] at hi
      omega
  have hcap : ¬((connAt k).maxChannels > 0 ∧
      (connAt k).channels.length ≥ (connAt k).maxChannels) := by
    simp [connAt, initConn]
  rw [add, if_neg hcap, hcur, hscan]
  dsimp only
  rw [hins]
  simp [connAt, initConn]

lemma add_full : add (connAt 65535) defaultBeh = none := by
  have hcur : (connAt 65535).nextFreeChannel % 65536 = 0 := by
    simp only [connAt]
  have hcap : ¬((connAt 65535).maxChannels > 0 ∧
      (connAt 65535).channels.length ≥ (connAt 65535).maxChannels) := by
    simp [connAt, initConn]
  cases hscan : scanFree (connAt 65535).channels 0 65536 with
  | none => rw [add, if_neg hcap, hcur, hscan]
  | some id =>
    exfalso
    obtain ⟨hlt, hne, hmem⟩ := scanFree_some 65536 0 id (by omega) hscan
    rw [mapMem_eq_false_iff, keys_connAt, List.mem_range'_1] at hmem
    omega

lemma addRun_general :
    ∀ (n k : Nat), k ≤ 65535 →
      addRun n (connAt k) =
        (List.range' (k + 1) (min n (65535 - k)), connAt (min (k + n) 65535)) := by
  intro n
  induction n with
  | zero =>
    intro k hk
    rw [show min 0 (65535 - k) = 0 from by omega, show min (k + 0) 65535 = k from by omega]
    simp [addRun]
  | succ n ih =>
    intro k hk
    by_cases hfull : k = 65535
    · subst hfull
      rw [addRun, add_full]
      rw [show min (n + 1) (65535 - 65535) = 0 from by omega,
        show min (65535 + (n + 1)) 65535 = 65535 from by omega]
      rfl
    · have hk' : k < 65535 := by omega
      simp only [addRun, add_step hk', ih (k + 1) (by omega)]
      rw [show min (n + 1) (65535 - k) = min n (65535 - (k + 1)) + 1 from by omega,
        List.range'_succ,
        show k + 1 + n = k + (n + 1) from by omega]

lemma connAt_zero : connAt 0 = initConn 0 := rfl

/-! ### Claim theorems: channel registry -/

/-- A connection with one registered channel whose `close()` reentrantly
removes that same channel from the registry. -/
def selfRemovingConn : ConnectionImpl :=
  { state := CState.connected
    closed := true
    queue := []
    channels := [(1, { removes := [1], destroys := false })]
    nextFreeChannel := 2
    maxChannels := 0
    maxFrame := 4096 }

/-- C1: the claim states that `sendClose` iterates a stable snapshot of the
registered channel handles, so that a reentrant `remove` during a per-channel
close can never invalidate the iteration.  The source
(connectionimpl.cpp lines 186-193) iterates the live `_channels` map instead:
with a single registered channel whose `close()` reentrantly removes itself,
the loop's `iter++` reads an iterator whose element was erased
mid-iteration (`Res.iterUB`), contradicting the claim. -/
theorem sendClose_live_iteration :
    sendClose selfRemovingConn [] = Res.iterUB := by decide

/-- C6 (amended): for every `N ≤ 65535`, `N` sequential `add` calls on a
fresh connection with unlimited capacity return the `N` distinct positive
identifiers `1 .. N`, and `0` is never among them; whenever a nonzero
configured maximum channel count is already reached, `add` returns the
sentinel 0 and leaves the connection unchanged; in particular with
`maxChannels = 1` the first `add` returns 1 and the second returns 0.
(The bound `N ≤ 65535` is forced: the identifier space is 16-bit, see
`addRun_overflow`.) -/
theorem add_ids (N : Nat) (hN : N ≤ 65535) :
    (addRun N (initConn 0)).1 = List.range' 1 N ∧
    (addRun N (initConn 0)).1.Nodup ∧
    (∀ i ∈ (addRun N (initConn 0)).1, 0 < i) ∧
    0 ∉ (addRun N (initConn 0)).1 ∧
    (∀ (conn : ConnectionImpl) (beh : ChanBeh), conn.maxChannels > 0 →
      conn.channels.length ≥ conn.maxChannels → add conn beh = some (0, conn)) ∧
    ∃ c1, add (initConn 1) defaultBeh = some (1, c1) ∧
      add c1 defaultBeh = some (0, c1) := by
  have hrun : (addRun N (initConn 0)).1 = List.range' 1 N := by
    rw [← connAt_zero, addRun_general N 0 (by omega),
      show min N (65535 - 0) = N from by omega]
  refine ⟨hrun, ?_, ?_, ?_, ?_, ?_⟩
  · rw [hrun]; exact List.nodup_range' 1 N
  · rw [hrun]; intro i hi; rw [List.mem_range'_1] at hi; omega
  · rw [hrun]; intro h0; rw [List.mem_range'_1] at h0; omega
  · intro conn beh h1 h2
    rw [add, if_pos ⟨h1, h2⟩]
  · exact ⟨{ initConn 1 with channels := [(1, defaultBeh)], nextFreeChannel := 2 },
      by decide, by decide⟩

/-- Witness for C6 at `N = 3`: the three returned ids are `[1, 2, 3]`. -/
theorem add_ids_witness :
    3 ≤ 65535 ∧
    ((addRun 3 (initConn 0)).1 = List.range' 1 3 ∧
      (addRun 3 (initConn 0)).1.Nodup ∧
      (∀ i ∈ (addRun 3 (initConn 0)).1, 0 < i) ∧
      0 ∉ (addRun 3 (initConn 0)).1 ∧
      (∀ (conn : ConnectionImpl) (beh : ChanBeh), conn.maxChannels > 0 →
        conn.channels.length ≥ conn.maxChannels → add conn beh = some (0, conn)) ∧
      ∃ c1, add (initConn 1) defaultBeh = some (1, c1) ∧
        add c1 defaultBeh = some (0, c1)) :=
  ⟨by omega, add_ids 3 (by omega)⟩

/-- Counterexample for C6 as stated: with unlimited capacity the claim's
`N` sequential `add` calls cannot return `N` identifiers for every `N`.
At `N = 65536` only 65535 calls return; the 65536th call starts from a
registry holding every nonzero 16-bit id, and its id-search loop never
terminates (`none`). -/
theorem addRun_overflow :
    (addRun 65536 (initConn 0)).1.length = 65535 ∧
    add (connAt 65535) defaultBeh = none := by
  constructor
  · rw [← connAt_zero, addRun_general 65536 0 (by omega),
      show min 65536 (65535 - 0) = 65535 from by omega]
    simp [List.length_range']
  · exact add_full

/-- C10: with a well-formed registry (distinct 16-bit keys) and a passing
capacity check, `add` terminates exactly when some nonzero 16-bit identifier
is unassigned (the id-search loop has no other exit); in particular with
fewer than 65535 registered channels it returns a free nonzero identifier. -/
theorem add_terminates (conn : ConnectionImpl) (beh : ChanBeh)
    (hnodup : (conn.channels.map Prod.fst).Nodup)
    (hcap : conn.maxChannels = 0 ∨ conn.channels.length < conn.maxChannels) :
    ((add conn beh).isSome ↔
      ∃ i, 1 ≤ i ∧ i < 65536 ∧ mapMem i conn.channels = false) ∧
    (conn.channels.length < 65535 →
      ∃ id conn2, add conn beh = some (id, conn2) ∧ id ≠ 0 ∧
        mapMem id conn.channels = false) := by
  have hcap' : ¬(conn.maxChannels > 0 ∧ conn.channels.length ≥ conn.maxChannels) := by
    rcases hcap with h | h <;> omega
  have hcur : conn.nextFreeChannel % 65536 < 65536 := Nat.mod_lt _ (by omega)
  have hiff : (add conn beh).isSome ↔
      ∃ i, 1 ≤ i ∧ i < 65536 ∧ mapMem i conn.channels = false := by
    constructor
    · intro hsome
      rw [add, if_neg hcap'] at hsome
      cases hscan : scanFree conn.channels (conn.nextFreeChannel % 65536) 65536 with
      | none => rw [hscan] at hsome; simp at hsome
      | some id =>
        obtain ⟨hlt, hne, hmem⟩ := scanFree_some _ _ _ hcur hscan
        exact ⟨id, by omega, hlt, hmem⟩
    · rintro ⟨i, h1, h2, h3⟩
      rw [add, if_neg hcap']
      cases hscan : scanFree conn.channels (conn.nextFreeChannel % 65536) 65536 with
      | some id => simp
      | none =>
        exfalso
        have hk : (conn.nextFreeChannel % 65536 +
            (i + 65536 - conn.nextFreeChannel % 65536) % 65536) % 65536 = i := by
          omega
        have hcover := scanFree_none 65536 (conn.nextFreeChannel % 65536) hcur hscan
          ((i + 65536 - conn.nextFreeChannel % 65536) % 65536) (by omega)
        rw [hk] at hcover
        rcases hcover with h | h
        · omega
        · rw [h3] at h; exact Bool.noConfusion h
  refine ⟨hiff, fun hlen => ?_⟩
  obtain ⟨i, h1, h2, h3⟩ := exists_free hnodup hlen
  have hsome := hiff.mpr ⟨i, h1, h2, h3⟩
  rw [add, if_neg hcap'] at hsome ⊢
  cases hscan : scanFree conn.channels (conn.nextFreeChannel % 65536) 65536 with
  | none => rw [hscan] at hsome; simp at hsome
  | some id =>
    obtain ⟨hlt, hne, hmem⟩ := scanFree_some _ _ _ hcur hscan
    exact ⟨id, _, rfl, hne, hmem⟩

/-- Witness for C10 on a fresh unlimited connection: `add` terminates and
returns a free nonzero id. -/
theorem add_terminates_witness :
    ((initConn 0).channels.map Prod.fst).Nodup ∧
    (((add (initConn 0) defaultBeh).isSome ↔
        ∃ i, 1 ≤ i ∧ i < 65536 ∧ mapMem i (initConn 0).channels = false) ∧
      ((initConn 0).channels.length < 65535 →
        ∃ id conn2, add (initConn 0) defaultBeh = some (id, conn2) ∧ id ≠ 0 ∧
          mapMem id (initConn 0).channels = false)) :=
  ⟨by simp [initConn], add_terminates (initConn 0) defaultBeh (by simp [initConn])
    (Or.inl rfl)⟩

/-! ### Lifecycle lemmas -/

lemma send_alive {f : Frame} {conn : ConnectionImpl} {o : List Bool} {c : ConnectionImpl}
    (h : (send f conn o).alive = some c) :
    c = conn ∨ c = { conn with queue := conn.queue ++ [buildBuffer f] } := by
  rw [send] at h
  split at h
  · left; exact (Option.some_inj.mp h).symm
  · split at h
    · split at h
      · exact absurd h (by simp)
      · left; exact (Option.some_inj.mp h).symm
    · right; exact (Option.some_inj.mp h).symm

lemma send_trace (f : Frame) (conn : ConnectionImpl) (o : List Bool) :
    (send f conn o).trace = [] ∨
      (send f conn o).trace = [HEvent.onData (buildBuffer f)] := by
  rw [send]
  split
  · left; rfl
  · split
    · right; rfl
    · left; rfl

lemma foldl_remove_closed :
    ∀ (ids : List Nat) (conn : ConnectionImpl),
      (ids.foldl (fun c i => remove i c) conn).closed = conn.closed := by
  intro ids
  induction ids with
  | nil => intro conn; rfl
  | cons i rest ih =>
    intro conn
    rw [List.foldl_cons, ih]
    rw [remove]
    split <;> rfl

lemma sendCloseLoop_closed :
    ∀ (fuel : Nat) (rem : List (Nat × ChanBeh)) (conn : ConnectionImpl) (o : List Bool)
      (b : Bool) (c1 : ConnectionImpl) (t : List HEvent) (o' : List Bool),
      sendCloseLoop fuel conn rem o = Res.ok b (some c1) t o' →
      c1.closed = conn.closed := by
  intro fuel
  induction fuel with
  | zero =>
    intro rem conn o b c1 t o' h
    cases rem with
    | nil =>
      simp only [sendCloseLoop] at h
      cases halive : (send connectionCloseFrame conn o).alive with
      | none => rw [halive] at h; simp at h
      | some c =>
        rw [halive] at h
        simp only [Res.ok.injEq, Option.some.injEq] at h
        rcases send_alive halive with rfl | rfl
        · rw [← h.2.1]
        · rw [← h.2.1]
    | cons a rest => simp [sendCloseLoop] at h
  | succ fuel ih =>
    intro rem conn o b c1 t o' h
    cases rem with
    | nil =>
      simp only [sendCloseLoop] at h
      cases halive : (send connectionCloseFrame conn o).alive with
      | none => rw [halive] at h; simp at h
      | some c =>
        rw [halive] at h
        simp only [Res.ok.injEq, Option.some.injEq] at h
        rcases send_alive halive with rfl | rfl
        · rw [← h.2.1]
        · rw [← h.2.1]
    | cons a rest =>
      obtain ⟨id, beh⟩ := a
      simp only [sendCloseLoop] at h
      split at h
      · simp at h
      · split at h
        · exact absurd h (by simp)
        · rw [ih _ _ _ _ _ _ _ h, foldl_remove_closed]

lemma sendCloseLoop_trace :
    ∀ (fuel : Nat) (rem : List (Nat × ChanBeh)) (conn : ConnectionImpl) (o : List Bool)
      (b : Bool) (a : Option ConnectionImpl) (t : List HEvent) (o' : List Bool),
      sendCloseLoop fuel conn rem o = Res.ok b a t o' →
      t = [] ∨ t = [HEvent.onData (buildBuffer connectionCloseFrame)] := by
  intro fuel
  induction fuel with
  | zero =>
    intro rem conn o b a t o' h
    cases rem with
    | nil =>
      simp only [sendCloseLoop] at h
      cases halive : (send connectionCloseFrame conn o).alive with
      | none =>
        rw [halive] at h
        simp only [Res.ok.injEq] at h
        rw [← h.2.2.1]
        exact send_trace connectionCloseFrame conn o
      | some c =>
        rw [halive] at h
        simp only [Res.ok.injEq] at h
        rw [← h.2.2.1]
        exact send_trace connectionCloseFrame conn o
    | cons a' rest => simp [sendCloseLoop] at h
  | succ fuel ih =>
    intro rem conn o b a t o' h
    cases rem with
    | nil =>
      simp only [sendCloseLoop] at h
      cases halive : (send connectionCloseFrame conn o).alive with
      | none =>
        rw [halive] at h
        simp only [Res.ok.injEq] at h
        rw [← h.2.2.1]
        exact send_trace connectionCloseFrame conn o
      | some c =>
        rw [halive] at h
        simp only [Res.ok.injEq] at h
        rw [← h.2.2.1]
        exact send_trace connectionCloseFrame conn o
    | cons a' rest =>
      obtain ⟨id, beh⟩ := a'
      simp only [sendCloseLoop] at h
      split at h
      · simp only [Res.ok.injEq] at h
        left; rw [← h.2.2.1]
      · split at h
        · exact absurd h (by simp)
        · exact ih _ _ _ _ _ _ _ h

lemma sendCloseLoop_benign :
    ∀ (rem : List (Nat × ChanBeh)) (conn : ConnectionImpl) (o : List Bool),
      (∀ p ∈ rem, p.2.removes = [] ∧ p.2.destroys = false) →
      sendCloseLoop (rem.length + 1) conn rem o = sendCloseLoop 0 conn [] o := by
  intro rem
  induction rem with
  | nil => intro conn o _; rfl
  | cons a rest ih =>
    intro conn o h
    obtain ⟨id, beh⟩ := a
    obtain ⟨hrem, hdes⟩ := h (id, beh) (by simp)
    dsimp only at hrem hdes
    have hrest : ∀ p ∈ rest, p.2.removes = [] ∧ p.2.destroys = false :=
      fun p hp => h p (List.mem_cons_of_mem _ hp)
    simp only [List.length_cons, sendCloseLoop, hrem, hdes, List.foldl_nil,
      List.contains_nil, Bool.not_false, Bool.or_true, List.filter_true,
      List.not_mem_nil, and_false, if_false]
    exact ih conn o hrest

lemma sendCloseLoop_nil_of_send {conn : ConnectionImpl} {o : List Bool}
    {c : ConnectionImpl} {t : List HEvent} {o2 : List Bool} (fuel : Nat)
    (h : send connectionCloseFrame conn o =
      { ok := true, alive := some c, trace := t, oracle := o2 }) :
    sendCloseLoop fuel conn [] o =
      Res.ok true (some { c with state := CState.closing }) t o2 := by
  cases fuel <;> simp [sendCloseLoop, h]

lemma drainLoop_nil_oracle :
    ∀ (q : List (List Nat)) (conn : ConnectionImpl),
      drainLoop conn q [] =
        { alive := some { conn with queue := [] }
          trace := q.map HEvent.onData
          oracle := [] } := by
  intro q
  induction q with
  | nil => intro conn; rfl
  | cons b rest ih => intro conn; simp [drainLoop, ih]

/-! ### Claim theorems: close, send ordering, delimiters -/

/-- C8: `close` is idempotent.  Whenever a first `close` call returns with
the object alive, its trace contains the connection-close frame buffer at
most once, and a second `close` call is a pure no-op returning false: no
events, no state change. -/
theorem close_idempotent (conn : ConnectionImpl) (o : List Bool) (r : Bool)
    (c1 : ConnectionImpl) (t : List HEvent) (o' : List Bool)
    (h : close conn o = Res.ok r (some c1) t o') :
    t.countP (fun e => e == HEvent.onData (buildBuffer connectionCloseFrame)) ≤ 1 ∧
    close c1 o' = Res.ok false (some c1) [] o' := by
  have hmain : c1.closed = true ∧
      (t = [] ∨ t = [HEvent.onData (buildBuffer connectionCloseFrame)]) := by
    rw [close] at h
    split at h
    · rename_i hcl
      simp only [Res.ok.injEq, Option.some.injEq] at h
      exact ⟨h.2.1 ▸ hcl, Or.inl h.2.2.1.symm⟩
    · split at h
      · simp only [Res.ok.injEq, Option.some.injEq] at h
        refine ⟨?_, Or.inl h.2.2.1.symm⟩
        rw [← h.2.1]
      · cases hsc : sendClose { conn with closed := true } o with
        | iterUB => rw [hsc] at h; simp at h
        | fuelOut => rw [hsc] at h; simp at h
        | ok b a t2 o2 =>
          rw [hsc] at h
          simp only [Res.ok.injEq] at h
          obtain ⟨-, ha, ht, -⟩ := h
          rw [sendClose] at hsc
          constructor
          · subst ha
            exact sendCloseLoop_closed _ _ _ _ _ _ _ _ hsc
          · subst ht
            exact sendCloseLoop_trace _ _ _ _ _ _ _ _ hsc
  obtain ⟨hclosed, htr⟩ := hmain
  constructor
  · rcases htr with rfl | rfl
    · simp
    · simp [List.countP_cons]
  · rw [close, if_pos hclosed]

/-- Witness for C8: a connected connection with no channels; the first call
emits the close frame once, the second call is a failing no-op. -/
theorem close_idempotent_witness :
    close { initConn 0 with state := CState.connected } [] =
        Res.ok true
          (some { initConn 0 with state := CState.closing, closed := true })
          [HEvent.onData (buildBuffer connectionCloseFrame)] [] ∧
    (([HEvent.onData (buildBuffer connectionCloseFrame)] :
        List HEvent).countP
          (fun e => e == HEvent.onData (buildBuffer connectionCloseFrame)) ≤ 1 ∧
      close { initConn 0 with state := CState.closing, closed := true } [] =
        Res.ok false (some { initConn 0 with state := CState.closing, closed := true }) [] []) :=
  ⟨by decide,
    close_idempotent { initConn 0 with state := CState.connected } [] true
      { initConn 0 with state := CState.closing, closed := true }
      [HEvent.onData (buildBuffer connectionCloseFrame)] [] (by decide)⟩

/-- C4: a `close` during handshake or protocol negotiation only sets the
`_closed` latch (returns true, transmits nothing); once negotiation completes
(`setConnected`) with the latch set, the close sequence runs: the
connection-close frame is delivered to the transport handler and the state
becomes closing.  (The channel handles are assumed not to tear anything down
reentrantly, and the handler oracle never destroys the connection.) -/
theorem close_latched :
    (∀ (conn : ConnectionImpl) (o : List Bool), conn.closed = false →
        (conn.state = CState.handshake ∨ conn.state = CState.protocol) →
        close conn o = Res.ok true (some { conn with closed := true }) [] o) ∧
    (∀ conn : ConnectionImpl, conn.closed = true →
        (∀ p ∈ conn.channels, p.2.removes = [] ∧ p.2.destroys = false) →
        ∃ c2 t, setConnected conn [] = Res.ok true (some c2) t [] ∧
          c2.state = CState.closing ∧
          HEvent.onData (buildBuffer connectionCloseFrame) ∈ t) := by
  constructor
  · intro conn o h1 h2
    rw [close, if_neg (by simp [h1]), if_pos h2]
  · intro conn h1 hben
    have hbenc :
        ∀ p ∈ ({ conn with state := CState.connected, closed := true } :
            ConnectionImpl).channels,
          p.2.removes = [] ∧ p.2.destroys = false := hben
    cases hq : conn.queue with
    | nil =>
      have hsend : send connectionCloseFrame
          { conn with state := CState.connected, closed := true } [] =
          { ok := true,
            alive := some { conn with state := CState.connected, closed := true },
            trace := [HEvent.onData (buildBuffer connectionCloseFrame)],
            oracle := [] } := by
        rw [send, if_neg (by simp), if_pos (Or.inl ⟨rfl, hq⟩)]
        rfl
      have hloop : sendClose { conn with state := CState.connected, closed := true } [] =
          Res.ok true (some { conn with state := CState.closing, closed := true })
            [HEvent.onData (buildBuffer connectionCloseFrame)] [] := by
        rw [sendClose, sendCloseLoop_benign _ _ _ hbenc, sendCloseLoop_nil_of_send 0 hsend]
      refine ⟨{ conn with state := CState.closing, closed := true, queue := [] },
        [HEvent.onData (buildBuffer connectionCloseFrame), HEvent.onConnected], ?_, rfl, by simp⟩
      rw [setConnected]
      dsimp only
      rw [h1, if_pos rfl, hloop]
      dsimp only
      simp only [List.headD_nil, List.tail_nil]
      rw [if_neg (by simp : ¬((false : Bool) = true))]
      rw [drainLoop_nil_oracle]
      dsimp only
      rw [hq]
      rfl
    | cons b bs =>
      have hsend : send connectionCloseFrame
          { conn with state := CState.connected, closed := true } [] =
          { ok := true,
            alive := some
              { conn with
                state := CState.connected,
                closed := true,
                queue := conn.queue ++ [buildBuffer connectionCloseFrame] },
            trace := [],
            oracle := [] } := by
        rw [send, if_neg (by simp), if_neg (by simp [hq, connectionCloseFrame])]
      have hloop : sendClose { conn with state := CState.connected, closed := true } [] =
          Res.ok true
            (some
              { conn with
                state := CState.closing,
                closed := true,
                queue := conn.queue ++ [buildBuffer connectionCloseFrame] })
            [] [] := by
        rw [sendClose, sendCloseLoop_benign _ _ _ hbenc, sendCloseLoop_nil_of_send 0 hsend]
      refine ⟨{ conn with state := CState.closing, closed := true, queue := [] },
        HEvent.onConnected ::
          (conn.queue ++ [buildBuffer connectionCloseFrame]).map HEvent.onData,
        ?_, rfl, by simp⟩
      rw [setConnected]
      dsimp only
      rw [h1, if_pos rfl, hloop]
      dsimp only
      simp only [List.headD_nil, List.tail_nil]
      rw [if_neg (by simp : ¬((false : Bool) = true))]
      rw [drainLoop_nil_oracle]
      rfl

/-- Witness for C4: a fresh handshake-phase connection; `close` only sets the
latch, and `setConnected` then emits the close frame and reaches the closing
state. -/
theorem close_latched_witness :
    ((initConn 0).closed = false ∧
      ((initConn 0).state = CState.handshake ∨ (initConn 0).state = CState.protocol) ∧
      close (initConn 0) [] = Res.ok true (some { initConn 0 with closed := true }) [] []) ∧
    ({ initConn 0 with closed := true } : ConnectionImpl).closed = true ∧
    (∃ c2 t, setConnected { initConn 0 with closed := true } [] = Res.ok true (some c2) t [] ∧
      c2.state = CState.closing ∧
      HEvent.onData (buildBuffer connectionCloseFrame) ∈ t) :=
  ⟨⟨rfl, Or.inl rfl,
      close_latched.1 (initConn 0) [] rfl (Or.inl rfl)⟩,
    rfl,
    close_latched.2 { initConn 0 with closed := true } rfl (by simp [initConn])⟩

/-- C9: the buffer `send` builds for a frame that needs a separator is
exactly the frame's encoding followed by the single delimiter byte 206;
for a frame that declares it needs no separator (the raw protocol header)
no byte is appended; the same buffer is used whether it is transmitted
immediately or queued. -/
theorem send_delimiter (f : Frame) (conn : ConnectionImpl) (o : List Bool)
    (h : ¬(conn.state = CState.closing ∨ conn.state = CState.closed)) :
    (f.needsSeparator = true → buildBuffer f = f.payload ++ [206]) ∧
    (f.needsSeparator = false → buildBuffer f = f.payload) ∧
    ((send f conn o).trace = [HEvent.onData (buildBuffer f)] ∨
      ((send f conn o).trace = [] ∧
        (send f conn o).alive = some { conn with queue := conn.queue ++ [buildBuffer f] })) ∧
    protocolHeaderFrame.needsSeparator = false ∧
    connectionCloseFrame.needsSeparator = true := by
  refine ⟨fun hs => by simp [buildBuffer, hs], fun hs => by simp [buildBuffer, hs],
    ?_, rfl, rfl⟩
  by_cases hbr : (conn.state = CState.connected ∧ conn.queue = []) ∨ f.partOfHandshake = true
  · left
    rw [send, if_neg h, if_pos hbr]
  · right
    rw [send, if_neg h, if_neg hbr]
    exact ⟨rfl, rfl⟩

/-- Witness for C9 on the connection-close frame sent over a connected
connection: the buffer ends with the appended byte 206 and is transmitted. -/
theorem send_delimiter_witness :
    (¬(({ initConn 0 with state := CState.connected } : ConnectionImpl).state = CState.closing ∨
        ({ initConn 0 with state := CState.connected } : ConnectionImpl).state = CState.closed)) ∧
    ((connectionCloseFrame.needsSeparator = true →
        buildBuffer connectionCloseFrame = connectionCloseFrame.payload ++ [206]) ∧
      (connectionCloseFrame.needsSeparator = false →
        buildBuffer connectionCloseFrame = connectionCloseFrame.payload) ∧
      ((send connectionCloseFrame { initConn 0 with state := CState.connected } []).trace =
          [HEvent.onData (buildBuffer connectionCloseFrame)] ∨
        ((send connectionCloseFrame { initConn 0 with state := CState.connected } []).trace = [] ∧
          (send connectionCloseFrame { initConn 0 with state := CState.connected } []).alive =
            some { { initConn 0 with state := CState.connected } with
              queue := ({ initConn 0 with state := CState.connected } : ConnectionImpl).queue ++
                [buildBuffer connectionCloseFrame] })) ∧
      protocolHeaderFrame.needsSeparator = false ∧
      connectionCloseFrame.needsSeparator = true) :=
  ⟨by decide,
    send_delimiter connectionCloseFrame { initConn 0 with state := CState.connected } []
      (by decide)⟩

lemma sendSeq_spec :
    ∀ (fs : List Frame) (conn : ConnectionImpl),
      (conn.state = CState.handshake ∨ conn.state = CState.protocol) →
      sendSeq fs conn =
        ((fs.filter (fun f => f.partOfHandshake)).map
            (fun f => HEvent.onData (buildBuffer f)),
          { conn with queue :=
              conn.queue ++ (fs.filter (fun f => !f.partOfHandshake)).map buildBuffer }) := by
  intro fs
  induction fs with
  | nil =>
    intro conn h
    simp [sendSeq]
  | cons f rest ih =>
    intro conn h
    have hstate : ¬(conn.state = CState.closing ∨ conn.state = CState.closed) := by
      rcases h with h | h <;> simp [h]
    by_cases hh : f.partOfHandshake = true
    · have hsend : send f conn [] =
          { ok := true, alive := some conn,
            trace := [HEvent.onData (buildBuffer f)], oracle := [] } := by
        rw [send, if_neg hstate, if_pos (Or.inr hh)]
        rfl
      simp only [sendSeq, hsend]
      rw [ih conn h]
      simp [hh]
    · have hbr : ¬((conn.state = CState.connected ∧ conn.queue = []) ∨
          f.partOfHandshake = true) := by
        rcases h with h | h <;> simp [h, hh]
      have hsend : send f conn [] =
          { ok := true,
            alive := some { conn with queue := conn.queue ++ [buildBuffer f] },
            trace := [], oracle := [] } := by
        rw [send, if_neg hstate, if_neg hbr]
      simp only [sendSeq, hsend]
      rw [ih { conn with queue := conn.queue ++ [buildBuffer f] } h]
      simp [hh, List.append_assoc]

/-- C3: FIFO ordering across the pre-negotiation queue.  For every sequence
of `send` calls issued while the connection is still negotiating, handshake
frames are delivered immediately (in call order, before anything queued),
every other frame is queued, and after `setConnected` the handler receives
`onConnected` followed by exactly the queued buffers, one `onData` call per
queue entry, in the order the `send` calls were issued. -/
theorem send_order (fs : List Frame) (conn : ConnectionImpl)
    (h1 : conn.state = CState.handshake ∨ conn.state = CState.protocol)
    (h2 : conn.queue = []) (h3 : conn.closed = false) :
    (sendSeq fs conn).1 =
      (fs.filter (fun f => f.partOfHandshake)).map
        (fun f => HEvent.onData (buildBuffer f)) ∧
    setConnected (sendSeq fs conn).2 [] =
      Res.ok true (some { conn with state := CState.connected, queue := [] })
        (HEvent.onConnected ::
          (fs.filter (fun f => !f.partOfHandshake)).map
            (fun f => HEvent.onData (buildBuffer f))) [] := by
  rw [sendSeq_spec fs conn h1]
  refine ⟨rfl, ?_⟩
  rw [setConnected]
  dsimp only
  rw [h3]
  rw [if_neg (by simp : ¬((false : Bool) = true))]
  dsimp only
  simp only [List.headD_nil, List.tail_nil]
  rw [if_neg (by simp : ¬((false : Bool) = true))]
  rw [drainLoop_nil_oracle]
  dsimp only
  rw [h2]
  simp [List.map_map, Function.comp]

/-- Witness for C3: one handshake frame and two application frames sent
during handshake; the handshake frame goes straight to the handler, the two
others are delivered after `onConnected` in send order. -/
theorem send_order_witness :
    (((initConn 0).state = CState.handshake ∨ (initConn 0).state = CState.protocol) ∧
      (initConn 0).queue = [] ∧ (initConn 0).closed = false) ∧
    ((sendSeq [protocolHeaderFrame,
        { payload := [1, 2], needsSeparator := true, partOfHandshake := false },
        { payload := [3], needsSeparator := true, partOfHandshake := false }]
        (initConn 0)).1 =
      ([protocolHeaderFrame,
        { payload := [1, 2], needsSeparator := true, partOfHandshake := false },
        { payload := [3], needsSeparator := true, partOfHandshake := false }].filter
          (fun f => f.partOfHandshake)).map (fun f => HEvent.onData (buildBuffer f)) ∧
    setConnected (sendSeq [protocolHeaderFrame,
        { payload := [1, 2], needsSeparator := true, partOfHandshake := false },
        { payload := [3], needsSeparator := true, partOfHandshake := false }]
        (initConn 0)).2 [] =
      Res.ok true (some { initConn 0 with state := CState.connected, queue := [] })
        (HEvent.onConnected ::
          ([protocolHeaderFrame,
            { payload := [1, 2], needsSeparator := true, partOfHandshake := false },
            { payload := [3], needsSeparator := true, partOfHandshake := false }].filter
              (fun f => !f.partOfHandshake)).map
            (fun f => HEvent.onData (buildBuffer f))) []) :=
  ⟨⟨Or.inl rfl, rfl, rfl⟩,
    send_order [protocolHeaderFrame,
      { payload := [1, 2], needsSeparator := true, partOfHandshake := false },
      { payload := [3], needsSeparator := true, partOfHandshake := false }]
      (initConn 0) (Or.inl rfl) rfl rfl⟩

/-! ### Parse-loop lemmas -/

lemma parseLoop_fuel (env : ParseEnv) :
    ∀ (fuel : Nat) (c : ConnectionImpl) (buf : List Nat), buf.length < fuel →
      parseLoop env fuel c buf = parseLoop env (buf.length + 1) c buf := by
  intro fuel
  induction fuel using Nat.strong_induction_on with
  | _ fuel ih =>
    intro c buf hlt
    cases fuel with
    | zero => omega
    | succ fuel =>
      cases buf with
      | nil => rfl
      | cons b bs =>
        simp only [List.length_cons]
        simp only [parseLoop]
        cases hd : env.decode c.maxFrame (b :: bs) with
        | incomplete => rfl
        | fault msg => rfl
        | frame n =>
          dsimp only
          by_cases hg : 0 < n ∧ n ≤ (b :: bs).length
          · rw [if_pos hg, if_pos hg]
            cases hp : env.proc ((b :: bs).take n) c with
            | destroyed => rfl
            | fault msg => rfl
            | alive c2 =>
              dsimp only
              have hdl : ((b :: bs).drop n).length = bs.length + 1 - n := by
                simp [List.length_drop]
              have h1 : ((b :: bs).drop n).length < fuel := by
                rw [hdl]
                simp only [List.length_cons] at hlt hg
                omega
              have h2 : ((b :: bs).drop n).length < bs.length + 1 := by
                rw [hdl]
                omega
              rw [ih fuel (by omega) c2 _ h1,
                ih (bs.length + 1) (by simp only [List.length_cons] at hlt; omega) c2 _ h2]
          · rw [if_neg hg, if_neg hg]

lemma parseLoop_append_aux (env : ParseEnv)
    (hext : ∀ mf w ext n, env.decode mf w = DecodeOutcome.frame n →
      env.decode mf (w ++ ext) = DecodeOutcome.frame n) :
    ∀ (k : Nat) (A B : List Nat) (c : ConnectionImpl) (evs : List HEvent)
      (c2 : ConnectionImpl),
      A.length ≤ k →
      parseLoop env (A.length + 1) c A =
        { processed := A.length, events := evs, alive := some c2 } →
      parseLoop env ((A ++ B).length + 1) c (A ++ B) =
        { processed := A.length + (parseLoop env (B.length + 1) c2 B).processed,
          events := evs ++ (parseLoop env (B.length + 1) c2 B).events,
          alive := (parseLoop env (B.length + 1) c2 B).alive } := by
  intro k
  induction k with
  | zero =>
    intro A B c evs c2 hk hA
    have hnil : A = [] := List.eq_nil_of_length_eq_zero (by omega)
    subst hnil
    have : evs = [] ∧ c2 = c := by
      simp only [List.length_nil, Nat.zero_add] at hA
      have h0 : parseLoop env 1 c [] =
          { processed := 0, events := [], alive := some c } := rfl
      rw [h0] at hA
      simp only [ParseResult.mk.injEq] at hA
      exact ⟨hA.2.1.symm, by
        have := hA.2.2
        simpa using this.symm⟩
    obtain ⟨rfl, rfl⟩ := this
    simp only [List.nil_append, List.length_nil, Nat.zero_add]
  | succ k ihk =>
    intro A B c evs c2 hk hA
    cases A with
    | nil =>
      have : evs = [] ∧ c2 = c := by
        simp only [List.length_nil, Nat.zero_add] at hA
        have h0 : parseLoop env 1 c [] =
            { processed := 0, events := [], alive := some c } := rfl
        rw [h0] at hA
        simp only [ParseResult.mk.injEq] at hA
        exact ⟨hA.2.1.symm, by
          have := hA.2.2
          simpa using this.symm⟩
      obtain ⟨rfl, rfl⟩ := this
      simp only [List.nil_append, List.length_nil, Nat.zero_add]
    | cons a as =>
      simp only [List.length_cons] at hA
      rw [parseLoop] at hA
      cases hd : env.decode c.maxFrame (a :: as) with
      | incomplete =>
        rw [hd] at hA
        simp only [ParseResult.mk.injEq] at hA
        omega
      | fault msg =>
        rw [hd] at hA
        simp only [ParseResult.mk.injEq] at hA
        omega
      | frame n =>
        rw [hd] at hA
        dsimp only at hA
        by_cases hg : 0 < n ∧ n ≤ (a :: as).length
        · rw [if_pos hg] at hA
          cases hp : env.proc ((a :: as).take n) c with
          | destroyed =>
            rw [hp] at hA
            simp at hA
          | fault msg =>
            rw [hp] at hA
            simp only [ParseResult.mk.injEq] at hA
            omega
          | alive cm =>
            rw [hp] at hA
            dsimp only at hA
            simp only [ParseResult.mk.injEq] at hA
            obtain ⟨hn, hev, hal⟩ := hA
            have hdl : ((a :: as).drop n).length = as.length + 1 - n := by
              simp [List.length_drop]
            have hfa : parseLoop env (as.length + 1) cm ((a :: as).drop n) =
                parseLoop env (((a :: as).drop n).length + 1) cm ((a :: as).drop n) := by
              apply parseLoop_fuel
              rw [hdl]
              simp only [List.length_cons] at hg
              omega
            rw [hfa] at hn hev hal
            have hproc : (parseLoop env (((a :: as).drop n).length + 1) cm
                ((a :: as).drop n)).processed = ((a :: as).drop n).length := by
              simp only [List.length_cons] at hg
              omega
            have hAd : parseLoop env (((a :: as).drop n).length + 1) cm ((a :: as).drop n) =
                { processed := ((a :: as).drop n).length,
                  events := (parseLoop env (((a :: as).drop n).length + 1) cm
                    ((a :: as).drop n)).events,
                  alive := some c2 } :=
              calc parseLoop env (((a :: as).drop n).length + 1) cm ((a :: as).drop n)
                  = { processed := (parseLoop env (((a :: as).drop n).length + 1) cm
                        ((a :: as).drop n)).processed,
                      events := (parseLoop env (((a :: as).drop n).length + 1) cm
                        ((a :: as).drop n)).events,
                      alive := (parseLoop env (((a :: as).drop n).length + 1) cm
                        ((a :: as).drop n)).alive } := rfl
                _ = { processed := ((a :: as).drop n).length,
                      events := (parseLoop env (((a :: as).drop n).length + 1) cm
                        ((a :: as).drop n)).events,
                      alive := some c2 } := by rw [hproc, hal]
            have hklen : ((a :: as).drop n).length ≤ k := by
              rw [hdl]
              simp only [List.length_cons] at hg hk
              omega
            have hih := ihk ((a :: as).drop n) B cm _ c2 hklen hAd
            -- now assemble the (a :: as) ++ B side
            simp only [List.cons_append, List.length_cons, List.length_append]
            rw [parseLoop]
            have hd2 : env.decode c.maxFrame (a :: (as ++ B)) = DecodeOutcome.frame n := by
              have := hext c.maxFrame (a :: as) B n hd
              simpa using this
            rw [hd2]
            dsimp only
            have hg2 : 0 < n ∧ n ≤ (a :: (as ++ B)).length := by
              simp only [List.length_cons, List.length_append]
              simp only [List.length_cons] at hg
              omega
            rw [if_pos hg2]
            have htk : (a :: (as ++ B)).take n = (a :: as).take n := by
              have : (a :: (as ++ B)) = (a :: as) ++ B := by simp
              rw [this]
              exact List.take_append_of_le_length hg.2
            have hdr : (a :: (as ++ B)).drop n = (a :: as).drop n ++ B := by
              have : (a :: (as ++ B)) = (a :: as) ++ B := by simp
              rw [this]
              exact List.drop_append_of_le_length hg.2
            rw [htk, hp]
            dsimp only
            rw [hdr]
            have hfb : parseLoop env (as.length + B.length + 1) cm ((a :: as).drop n ++ B) =
                parseLoop env ((((a :: as).drop n ++ B)).length + 1) cm
                  ((a :: as).drop n ++ B) := by
              apply parseLoop_fuel
              simp only [List.length_append]
              rw [hdl]
              simp only [List.length_cons] at hg
              omega
            rw [hfb, hih]
            simp only [ParseResult.mk.injEq]
            refine ⟨?_, ?_, trivial⟩
            · rw [hdl]
              simp only [List.length_cons] at hg
              omega
            · rw [← hev]
              simp
        · rw [if_neg hg] at hA
          simp only [ParseResult.mk.injEq] at hA
          omega

lemma parseLoop_append (env : ParseEnv)
    (hext : ∀ mf w ext n, env.decode mf w = DecodeOutcome.frame n →
      env.decode mf (w ++ ext) = DecodeOutcome.frame n)
    (A B : List Nat) (c : ConnectionImpl) (evs : List HEvent) (c2 : ConnectionImpl)
    (hA : parseLoop env (A.length + 1) c A =
      { processed := A.length, events := evs, alive := some c2 }) :
    parseLoop env ((A ++ B).length + 1) c (A ++ B) =
      { processed := A.length + (parseLoop env (B.length + 1) c2 B).processed,
        events := evs ++ (parseLoop env (B.length + 1) c2 B).events,
        alive := (parseLoop env (B.length + 1) c2 B).alive } :=
  parseLoop_append_aux env hext A.length A B c evs c2 (Nat.le_refl _) hA

lemma parseLoop_full_dispatches (env : ParseEnv) :
    ∀ (k : Nat) (A : List Nat) (c : ConnectionImpl) (evs : List HEvent)
      (c2 : ConnectionImpl),
      A.length ≤ k →
      parseLoop env (A.length + 1) c A =
        { processed := A.length, events := evs, alive := some c2 } →
      ∀ e ∈ evs, ∃ bts, e = HEvent.dispatched bts := by
  intro k
  induction k with
  | zero =>
    intro A c evs c2 hk hA
    have hnil : A = [] := List.eq_nil_of_length_eq_zero (by omega)
    subst hnil
    simp only [List.length_nil, Nat.zero_add] at hA
    have h0 : parseLoop env 1 c [] =
        { processed := 0, events := [], alive := some c } := rfl
    rw [h0] at hA
    simp only [ParseResult.mk.injEq] at hA
    rw [← hA.2.1]
    intro e he
    exact absurd he (List.not_mem_nil e)
  | succ k ihk =>
    intro A c evs c2 hk hA
    cases A with
    | nil =>
      simp only [List.length_nil, Nat.zero_add] at hA
      have h0 : parseLoop env 1 c [] =
          { processed := 0, events := [], alive := some c } := rfl
      rw [h0] at hA
      simp only [ParseResult.mk.injEq] at hA
      rw [← hA.2.1]
      intro e he
      exact absurd he (List.not_mem_nil e)
    | cons a as =>
      simp only [List.length_cons] at hA
      rw [parseLoop] at hA
      cases hd : env.decode c.maxFrame (a :: as) with
      | incomplete =>
        rw [hd] at hA
        simp only [ParseResult.mk.injEq] at hA
        omega
      | fault msg =>
        rw [hd] at hA
        simp only [ParseResult.mk.injEq] at hA
        omega
      | frame n =>
        rw [hd] at hA
        dsimp only at hA
        by_cases hg : 0 < n ∧ n ≤ (a :: as).length
        · rw [if_pos hg] at hA
          cases hp : env.proc ((a :: as).take n) c with
          | destroyed =>
            rw [hp] at hA
            simp at hA
          | fault msg =>
            rw [hp] at hA
            simp only [ParseResult.mk.injEq] at hA
            omega
          | alive cm =>
            rw [hp] at hA
            dsimp only at hA
            simp only [ParseResult.mk.injEq] at hA
            obtain ⟨hn, hev, hal⟩ := hA
            have hdl : ((a :: as).drop n).length = as.length + 1 - n := by
              simp [List.length_drop]
            have hfa : parseLoop env (as.length + 1) cm ((a :: as).drop n) =
                parseLoop env (((a :: as).drop n).length + 1) cm ((a :: as).drop n) := by
              apply parseLoop_fuel
              rw [hdl]
              simp only [List.length_cons] at hg
              omega
            rw [hfa] at hn hev hal
            have hproc : (parseLoop env (((a :: as).drop n).length + 1) cm
                ((a :: as).drop n)).processed = ((a :: as).drop n).length := by
              simp only [List.length_cons] at hg
              omega
            have hAd : parseLoop env (((a :: as).drop n).length + 1) cm ((a :: as).drop n) =
                { processed := ((a :: as).drop n).length,
                  events := (parseLoop env (((a :: as).drop n).length + 1) cm
                    ((a :: as).drop n)).events,
                  alive := some c2 } :=
              calc parseLoop env (((a :: as).drop n).length + 1) cm ((a :: as).drop n)
                  = { processed := (parseLoop env (((a :: as).drop n).length + 1) cm
                        ((a :: as).drop n)).processed,
                      events := (parseLoop env (((a :: as).drop n).length + 1) cm
                        ((a :: as).drop n)).events,
                      alive := (parseLoop env (((a :: as).drop n).length + 1) cm
                        ((a :: as).drop n)).alive } := rfl
                _ = { processed := ((a :: as).drop n).length,
                      events := (parseLoop env (((a :: as).drop n).length + 1) cm
                        ((a :: as).drop n)).events,
                      alive := some c2 } := by rw [hproc, hal]
            have hklen : ((a :: as).drop n).length ≤ k := by
              rw [hdl]
              simp only [List.length_cons] at hg hk
              omega
            have hih := ihk ((a :: as).drop n) cm _ c2 hklen hAd
            intro e he
            rw [← hev] at he
            rcases List.mem_cons.mp he with rfl | hmem
            · exact ⟨(a :: as).take n, rfl⟩
            · exact hih e hmem
        · rw [if_neg hg] at hA
          simp only [ParseResult.mk.injEq] at hA
          omega

lemma getD_append_left {l l' : List Nat} {n : Nat} {d : Nat} (h : n < l.length) :
    (l ++ l').getD n d = l.getD n d := by
  simp [List.getD_eq_getElem?_getD, List.getElem?_append_left h]

lemma modelDecode_ext : ∀ (mf : Nat) (w ext : List Nat) (n : Nat),
    modelDecode mf w = DecodeOutcome.frame n →
    modelDecode mf (w ++ ext) = DecodeOutcome.frame n := by
  intro mf w ext n h
  rw [modelDecode] at h
  by_cases h7 : w.length < 7
  · rw [if_pos h7] at h
    exact absurd h (by simp)
  · rw [if_neg h7] at h
    have hbe : beSize (w ++ ext) = beSize w := by
      unfold beSize
      rw [getD_append_left (by omega), getD_append_left (by omega),
        getD_append_left (by omega), getD_append_left (by omega)]
    rw [modelDecode, if_neg (by simp only [List.length_append]; omega), hbe]
    by_cases hmf : 0 < mf ∧ mf < 8 + beSize w
    · rw [if_pos hmf] at h
      exact absurd h (by simp)
    · rw [if_neg hmf] at h
      rw [if_neg hmf]
      by_cases hinc : w.length < 8 + beSize w
      · rw [if_pos hinc] at h
        exact absurd h (by simp)
      · rw [if_neg hinc] at h
        rw [if_neg (by simp only [List.length_append]; omega)]
        exact h

/-! ### Claim theorems: parse -/

/-- C2: liveness under reentrant destruction.  If `parse` has consumed the
prefix `A` with the connection still alive, and dispatching the frame that
starts the remainder `B` destroys the connection, then the `parse` call stops
right there: no further frame is dispatched, the connection is reported gone
(`alive = none`, so no further access to its state is possible), and the
returned count is the bytes up to and including the destroying frame. -/
theorem parse_destroyed (env : ParseEnv)
    (hext : ∀ mf w ext n, env.decode mf w = DecodeOutcome.frame n →
      env.decode mf (w ++ ext) = DecodeOutcome.frame n)
    (c : ConnectionImpl) (A B : List Nat) (evs : List HEvent)
    (c2 : ConnectionImpl) (n : Nat)
    (hstate : ¬ c.state = CState.closed)
    (hA : parse env c A = { processed := A.length, events := evs, alive := some c2 })
    (hd : env.decode c2.maxFrame B = DecodeOutcome.frame n)
    (hn : 0 < n) (hnB : n ≤ B.length)
    (hp : env.proc (B.take n) c2 = ProcOutcome.destroyed) :
    parse env c (A ++ B) =
      { processed := A.length + n,
        events := evs ++ [HEvent.dispatched (B.take n)],
        alive := none } := by
  rw [parse, if_neg hstate] at hA
  rw [parse, if_neg hstate, parseLoop_append env hext A B c evs c2 hA]
  cases B with
  | nil =>
    exfalso
    simp only [List.length_nil] at hnB
    omega
  | cons b bs =>
    have hred : parseLoop env ((b :: bs).length + 1) c2 (b :: bs) =
        { processed := n, events := [HEvent.dispatched ((b :: bs).take n)],
          alive := none } := by
      simp only [List.length_cons]
      rw [parseLoop, hd]
      dsimp only
      rw [if_pos ⟨hn, hnB⟩, hp]
    rw [hred]

/-- Witness for C2: a 9-byte frame processed normally, then an 8-byte frame
whose dispatch destroys the connection; `parse` returns 17 bytes consumed and
stops. -/
theorem parse_destroyed_witness :
    (¬ (initConn 0).state = CState.closed) ∧
    parse { decode := modelDecode, proc := procSel } (initConn 0)
        ([1, 0, 0, 0, 0, 0, 1, 42, 206] ++ [8, 0, 0, 0, 0, 0, 0, 206]) =
      { processed := [1, 0, 0, 0, 0, 0, 1, 42, 206].length + 8,
        events := [HEvent.dispatched [1, 0, 0, 0, 0, 0, 1, 42, 206]] ++
          [HEvent.dispatched ([8, 0, 0, 0, 0, 0, 0, 206].take 8)],
        alive := none } :=
  ⟨by decide,
    parse_destroyed { decode := modelDecode, proc := procSel } modelDecode_ext
      (initConn 0) [1, 0, 0, 0, 0, 0, 1, 42, 206] [8, 0, 0, 0, 0, 0, 0, 206]
      [HEvent.dispatched [1, 0, 0, 0, 0, 0, 1, 42, 206]] (initConn 0) 8
      (by decide) (by decide) (by decide) (by decide) (by decide) (by decide)⟩

/-- C7: protocol faults.  If `parse` has consumed the prefix `A` normally and
frame decoding of the remainder `B` raises a protocol fault, the fault is
reported through the error callback exactly once, `parse` returns exactly the
bytes consumed before the faulting frame (no bytes are skipped, no
resynchronization is attempted, nothing further is dispatched), and the fault
does not escape `parse` (the call returns an ordinary result). -/
theorem parse_fault_report (env : ParseEnv)
    (hext : ∀ mf w ext n, env.decode mf w = DecodeOutcome.frame n →
      env.decode mf (w ++ ext) = DecodeOutcome.frame n)
    (c : ConnectionImpl) (A B : List Nat) (evs : List HEvent)
    (c2 : ConnectionImpl) (msg : String)
    (hstate : ¬ c.state = CState.closed)
    (hA : parse env c A = { processed := A.length, events := evs, alive := some c2 })
    (hB : B ≠ [])
    (hd : env.decode c2.maxFrame B = DecodeOutcome.fault msg) :
    parse env c (A ++ B) =
      { processed := A.length,
        events := evs ++ [HEvent.onError msg],
        alive := some (reportError c2) } ∧
    (evs ++ [HEvent.onError msg]).countP isErrorEv = 1 := by
  rw [parse, if_neg hstate] at hA
  constructor
  · rw [parse, if_neg hstate, parseLoop_append env hext A B c evs c2 hA]
    cases B with
    | nil => exact absurd rfl hB
    | cons b bs =>
      have hred : parseLoop env ((b :: bs).length + 1) c2 (b :: bs) =
          { processed := 0, events := [HEvent.onError msg],
            alive := some (reportError c2) } := by
        simp only [List.length_cons]
        rw [parseLoop, hd]
      rw [hred]
      simp
  · have hdisp := parseLoop_full_dispatches env A.length A c evs c2 (Nat.le_refl _) hA
    rw [List.countP_append]
    have h0 : evs.countP isErrorEv = 0 := by
      rw [List.countP_eq_zero]
      intro e he
      obtain ⟨bts, rfl⟩ := hdisp e he
      simp [isErrorEv]
    rw [h0]
    rfl

/-- Witness for C7: a good 9-byte frame followed by a header whose declared
size exceeds the maximum frame size; the fault is reported once and only the
9 good bytes are consumed. -/
theorem parse_fault_report_witness :
    ((¬ (initConn 0).state = CState.closed) ∧ ([1, 0, 0, 0, 0, 255, 255] : List Nat) ≠ []) ∧
    (parse { decode := modelDecode, proc := procSel } (initConn 0)
        ([1, 0, 0, 0, 0, 0, 1, 42, 206] ++ [1, 0, 0, 0, 0, 255, 255]) =
      { processed := [1, 0, 0, 0, 0, 0, 1, 42, 206].length,
        events := [HEvent.dispatched [1, 0, 0, 0, 0, 0, 1, 42, 206]] ++
          [HEvent.onError "frame size exceeded"],
        alive := some (reportError (initConn 0)) } ∧
    ([HEvent.dispatched [1, 0, 0, 0, 0, 0, 1, 42, 206]] ++
        [HEvent.onError "frame size exceeded"]).countP isErrorEv = 1) :=
  ⟨⟨by decide, by decide⟩,
    parse_fault_report { decode := modelDecode, proc := procSel } modelDecode_ext
      (initConn 0) [1, 0, 0, 0, 0, 0, 1, 42, 206] [1, 0, 0, 0, 0, 255, 255]
      [HEvent.dispatched [1, 0, 0, 0, 0, 0, 1, 42, 206]] (initConn 0)
      "frame size exceeded" (by decide) (by decide) (by decide) (by decide)⟩

/-- C5: partial frames.  For a complete frame encoding `E` split anywhere
with a nonempty suffix, `parse` on the prefix alone consumes 0 bytes,
dispatches nothing and leaves the connection untouched (the engine keeps no
internal buffer: re-supplying the whole encoding is the caller's job), and
`parse` on prefix plus suffix is literally the same call as `parse` on the
whole encoding, which consumes all of `E` and dispatches exactly that one
frame. -/
theorem parse_partial (env : ParseEnv) (c : ConnectionImpl) (E pre suf : List Nat)
    (hstate : ¬ c.state = CState.closed)
    (hsplit : pre ++ suf = E) (hsuf : suf ≠ [])
    (hpre : env.decode c.maxFrame pre = DecodeOutcome.incomplete)
    (hE : env.decode c.maxFrame E = DecodeOutcome.frame E.length)
    (hlen : 0 < E.length)
    (hproc : ∀ msg, env.proc E c ≠ ProcOutcome.fault msg) :
    parse env c pre = { processed := 0, events := [], alive := some c } ∧
    parse env c (pre ++ suf) = parse env c E ∧
    (parse env c E).processed = E.length ∧
    (parse env c E).events = [HEvent.dispatched E] := by
  have hcomp : (parse env c E).processed = E.length ∧
      (parse env c E).events = [HEvent.dispatched E] := by
    cases E with
    | nil => simp at hlen
    | cons e es =>
      rw [parse, if_neg hstate]
      rw [parseLoop, hE]
      dsimp only
      rw [if_pos ⟨hlen, Nat.le_refl _⟩, List.take_length]
      cases hp : env.proc (e :: es) c with
      | fault msg => exact absurd hp (hproc msg)
      | destroyed => exact ⟨rfl, rfl⟩
      | alive cm =>
        dsimp only
        rw [List.drop_length]
        have hbase : parseLoop env (e :: es).length cm [] =
            { processed := 0, events := [], alive := some cm } := rfl
        rw [hbase]
        exact ⟨by simp, rfl⟩
  refine ⟨?_, by rw [hsplit], hcomp.1, hcomp.2⟩
  rw [parse, if_neg hstate]
  cases pre with
  | nil => rfl
  | cons p ps =>
    simp only [List.length_cons]
    rw [parseLoop, hpre]

/-- Witness for C5: the 9-byte frame split after 4 bytes. -/
theorem parse_partial_witness :
    ((¬ (initConn 0).state = CState.closed) ∧
      ([1, 0, 0, 0] : List Nat) ++ [0, 0, 1, 42, 206] = [1, 0, 0, 0, 0, 0, 1, 42, 206] ∧
      ([0, 0, 1, 42, 206] : List Nat) ≠ []) ∧
    (parse { decode := modelDecode, proc := procId } (initConn 0) [1, 0, 0, 0] =
      { processed := 0, events := [], alive := some (initConn 0) } ∧
    parse { decode := modelDecode, proc := procId } (initConn 0)
        ([1, 0, 0, 0] ++ [0, 0, 1, 42, 206]) =
      parse { decode := modelDecode, proc := procId } (initConn 0)
        [1, 0, 0, 0, 0, 0, 1, 42, 206] ∧
    (parse { decode := modelDecode, proc := procId } (initConn 0)
        [1, 0, 0, 0, 0, 0, 1, 42, 206]).processed =
      ([1, 0, 0, 0, 0, 0, 1, 42, 206] : List Nat).length ∧
    (parse { decode := modelDecode, proc := procId } (initConn 0)
        [1, 0, 0, 0, 0, 0, 1, 42, 206]).events =
      [HEvent.dispatched [1, 0, 0, 0, 0, 0, 1, 42, 206]]) :=
  ⟨⟨by decide, by decide, by decide⟩,
    parse_partial { decode := modelDecode, proc := procId } (initConn 0)
      [1, 0, 0, 0, 0, 0, 1, 42, 206] [1, 0, 0, 0] [0, 0, 1, 42, 206]
      (by decide) (by decide) (by decide) (by decide) (by decide) (by decide)
      (fun msg => by simp [procId])⟩

end AMQP
